import Mathlib

/-!
# Verification of the AutoLinter workspace-linting orchestration engine

Shallow embedding of the core of the `vscode_autolinter` extension:
the prioritized linting queue, the diagnostic provider (sink) with its
statistics, the gitignore-pattern cache, the glob-style pattern matcher,
the file-eligibility check, and the workspace-lint orchestration of
`WorkspaceLinter` (`src/workspaceLinter.ts`, full version embedded in the
repository README) and `DiagnosticProvider` (`src/diagnosticProvider.ts`).

JS semantics notes reflected in the embedding:
- `Array.prototype.sort` is a stable sort (ES2019); the queue comparator
  `(a, b) => b.priority - a.priority` sorts by descending priority, with
  equal-priority items keeping their relative (push) order.  We model it
  with `List.insertionSort`, which is stable.
- `Date.now()` timestamps are modeled as an explicit `Nat` clock argument.
- JS `Map` is insertion-ordered; modeled as an association list where
  `set` replaces in place and otherwise appends.
-/

namespace AutoLinter

/-- `LintQueueItem` from `workspaceLinter.ts`: a pending unit of work.
`uri` stands for `uri.fsPath`; `priority` higher = sooner. -/
structure LintQueueItem where
  uri : String
  priority : Int
  timestamp : Nat
  deriving Repr, DecidableEq

/-- The queue ordering used by `this.lintingQueue.sort((a, b) => b.priority - a.priority)`:
`a` is sorted no later than `b` iff `b.priority ≤ a.priority` (descending priority). -/
def queueOrder (a b : LintQueueItem) : Prop := b.priority ≤ a.priority

instance : DecidableRel queueOrder := fun a b =>
  inferInstanceAs (Decidable (b.priority ≤ a.priority))

instance : IsTotal LintQueueItem queueOrder :=
  ⟨fun a b => (le_total b.priority a.priority).imp id id⟩

instance : IsTrans LintQueueItem queueOrder :=
  ⟨fun _ _ _ h1 h2 => le_trans h2 h1⟩

/-- `WorkspaceLinter.addToQueue(uri, priority)` (README-embedded
`workspaceLinter.ts`): remove any existing entry for the file, push the new
entry with the current timestamp, then stable-sort by descending priority. -/
def addToQueue (q : List LintQueueItem) (uri : String) (priority : Int)
    (now : Nat) : List LintQueueItem :=
  let q1 := q.filter (fun item => item.uri != uri)
  (q1 ++ [LintQueueItem.mk uri priority now]).insertionSort queueOrder

/-- A sequence of `addToQueue` calls starting from queue `q` at time `t`,
with the clock advancing by one tick per enqueue (timestamps record
enqueue order, as successive `Date.now()` readings do). -/
def enqueueAllAux : Nat → List LintQueueItem → List (String × Int) → List LintQueueItem
  | _, q, [] => q
  | t, q, (u, p) :: rest => enqueueAllAux (t + 1) (addToQueue q u p t) rest

/-- All the given `(uri, priority)` requests enqueued in order into an
initially empty queue. -/
def enqueueAll (ops : List (String × Int)) : List LintQueueItem :=
  enqueueAllAux 0 [] ops

/-- `WorkspaceLinter.processQueue` batch draw:
`const batch = this.lintingQueue.splice(0, batchSize)` with `batchSize = 5`
returns the first five queue items and leaves the rest. -/
def processQueueBatch (q : List LintQueueItem) : List LintQueueItem × List LintQueueItem :=
  (q.take 5, q.drop 5)

/-- The relation every adjacent (hence every ordered) pair of queue entries
satisfies: strictly higher priority first, and among equal priorities the
entry with the earlier timestamp (earlier enqueue) first. -/
def queueRel (a b : LintQueueItem) : Prop :=
  b.priority < a.priority ∨ (a.priority = b.priority ∧ a.timestamp < b.timestamp)

/-- Tie-break precursor: if two items have equal priority, the first was
enqueued (timestamped) earlier. -/
def tieTs (a b : LintQueueItem) : Prop :=
  a.priority = b.priority → a.timestamp < b.timestamp

theorem queueRel.to_tieTs {a b : LintQueueItem} (h : queueRel a b) : tieTs a b := by
  intro hp
  rcases h with h | ⟨_, hts⟩
  · exact absurd hp (by omega)
  · exact hts

/-- Inserting `a` into a `queueOrder`-sorted, `queueRel`-pairwise list all of
whose members tie-break after `a` preserves `queueRel`-pairwiseness. -/
theorem pairwise_queueRel_orderedInsert (a : LintQueueItem) :
    ∀ M : List LintQueueItem, M.Pairwise queueOrder → M.Pairwise queueRel →
      (∀ b ∈ M, tieTs a b) →
      (M.orderedInsert queueOrder a).Pairwise queueRel
  | [], _, _, _ => by simp [List.orderedInsert]
  | b :: M', hs, hp, ha => by
    by_cases hab : queueOrder a b
    · rw [List.orderedInsert, if_pos hab]
      refine List.Pairwise.cons ?_ hp
      intro y hy
      have hby : y = b ∨ y ∈ M' := by simpa using hy
      have hay : queueOrder a y := by
        rcases hby with rfl | hmem
        · exact hab
        · exact Trans.trans hab (List.rel_of_sorted_cons hs y hmem)
      have hta : tieTs a y := ha y hy
      rcases lt_or_eq_of_le hay with hlt | heq
      · exact Or.inl hlt
      · exact Or.inr ⟨heq.symm, hta heq.symm⟩
    · rw [List.orderedInsert, if_neg hab]
      refine List.Pairwise.cons ?_ ?_
      · intro y hy
        rcases (List.mem_orderedInsert queueOrder).mp hy with rfl | hmem
        · exact Or.inl (by simpa [queueOrder, not_le] using hab)
        · exact (List.pairwise_cons.mp hp).1 y hmem
      · exact pairwise_queueRel_orderedInsert a M' (List.Pairwise.of_cons hs)
          (List.Pairwise.of_cons hp) (fun y hy => ha y (List.mem_cons_of_mem b hy))

/-- Stability of the queue sort: if equal-priority items appear in timestamp
order in the input, the sorted output is pairwise `queueRel` (descending
priority, FIFO among equal priorities). -/
theorem pairwise_queueRel_insertionSort :
    ∀ l : List LintQueueItem, l.Pairwise tieTs →
      (l.insertionSort queueOrder).Pairwise queueRel
  | [], _ => by simp [List.insertionSort]
  | a :: l', h => by
    rw [List.insertionSort]
    have hcons := List.pairwise_cons.mp h
    exact pairwise_queueRel_orderedInsert a _
      (List.sorted_insertionSort queueOrder l')
      (pairwise_queueRel_insertionSort l' hcons.2)
      (fun b hb => hcons.1 b ((List.mem_insertionSort queueOrder).mp hb))

/-- One `addToQueue` call preserves the queue invariant:
pairwise `queueRel` plus all timestamps below the clock. -/
theorem addToQueue_invariant {q : List LintQueueItem} {t : Nat}
    (hq : q.Pairwise queueRel) (ht : ∀ x ∈ q, x.timestamp < t)
    (u : String) (p : Int) :
    (addToQueue q u p t).Pairwise queueRel ∧
      ∀ x ∈ addToQueue q u p t, x.timestamp < t + 1 := by
  unfold addToQueue
  have hq1 : (q.filter (fun item => item.uri != u)).Pairwise queueRel :=
    hq.sublist (List.filter_sublist q)
  have ht1 : ∀ x ∈ q.filter (fun item => item.uri != u), x.timestamp < t :=
    fun x hx => ht x (List.mem_of_mem_filter hx)
  constructor
  · apply pairwise_queueRel_insertionSort
    rw [List.pairwise_append]
    refine ⟨hq1.imp queueRel.to_tieTs, List.pairwise_singleton _ _, ?_⟩
    intro a ha x hx
    rw [List.mem_singleton] at hx
    subst hx
    intro _
    exact ht1 a ha
  · intro x hx
    have := (List.mem_insertionSort queueOrder).mp hx
    rcases List.mem_append.mp this with hmem | hmem
    · exact Nat.lt_succ_of_lt (ht1 x hmem)
    · rw [List.mem_singleton] at hmem
      subst hmem
      exact Nat.lt_succ_self t

/-- The queue invariant is preserved along any sequence of enqueues. -/
theorem enqueueAllAux_invariant :
    ∀ (ops : List (String × Int)) (t : Nat) (q : List LintQueueItem),
      q.Pairwise queueRel → (∀ x ∈ q, x.timestamp < t) →
      (enqueueAllAux t q ops).Pairwise queueRel
  | [], _, _, hq, _ => hq
  | (u, p) :: rest, t, q, hq, ht => by
    rw [enqueueAllAux]
    obtain ⟨h1, h2⟩ := addToQueue_invariant hq ht u p
    exact enqueueAllAux_invariant rest (t + 1) _ h1 h2

theorem enqueueAll_pairwise (ops : List (String × Int)) :
    (enqueueAll ops).Pairwise queueRel :=
  enqueueAllAux_invariant ops 0 [] (List.Pairwise.nil) (by simp)

/-- A list of length one containing `x` is `[x]`. -/
theorem eq_singleton_of_length_one_of_mem {α : Type} {l : List α} {x : α}
    (h1 : l.length = 1) (h2 : x ∈ l) : l = [x] := by
  obtain ⟨a, rfl⟩ := List.length_eq_one.mp h1
  rw [List.mem_singleton] at h2
  rw [h2]

/-- After `addToQueue q u p t`, the queue holds exactly one entry for file
`u`, namely the one just pushed (new priority, new timestamp). -/
theorem addToQueue_filter_self (q : List LintQueueItem) (u : String)
    (p : Int) (t : Nat) :
    (addToQueue q u p t).filter (fun x => x.uri == u) =
      [LintQueueItem.mk u p t] := by
  have hperm : List.Perm (addToQueue q u p t)
      (q.filter (fun item => item.uri != u) ++ [LintQueueItem.mk u p t]) :=
    List.perm_insertionSort queueOrder _
  have hcount0 :
      (q.filter (fun item => item.uri != u)).countP (fun x => x.uri == u) = 0 := by
    rw [List.countP_eq_zero]
    intro x hx
    have := List.of_mem_filter hx
    simpa using this
  have hcount : (addToQueue q u p t).countP (fun x => x.uri == u) = 1 := by
    rw [hperm.countP_eq]
    rw [List.countP_append, hcount0]
    simp
  have hmem : LintQueueItem.mk u p t ∈ addToQueue q u p t := by
    rw [hperm.mem_iff]
    simp
  apply eq_singleton_of_length_one_of_mem
  · rw [← List.countP_eq_length_filter]
    exact hcount
  · rw [List.mem_filter]
    exact ⟨hmem, by simp⟩

/-- `addToQueue` preserves the one-entry-per-file invariant. -/
theorem addToQueue_nodup {q : List LintQueueItem}
    (h : (q.map LintQueueItem.uri).Nodup) (u : String) (p : Int) (t : Nat) :
    ((addToQueue q u p t).map LintQueueItem.uri).Nodup := by
  have hperm : List.Perm (addToQueue q u p t)
      (q.filter (fun item => item.uri != u) ++ [LintQueueItem.mk u p t]) :=
    List.perm_insertionSort queueOrder _
  rw [(hperm.map LintQueueItem.uri).nodup_iff]
  rw [List.map_append, List.nodup_append]
  refine ⟨(h.sublist ((List.filter_sublist q).map LintQueueItem.uri)), by simp, ?_⟩
  intro a ha hb
  rw [List.map_singleton, List.mem_singleton] at hb
  subst hb
  obtain ⟨x, hx, hxu⟩ := List.mem_map.mp ha
  have := List.of_mem_filter hx
  rw [hxu] at this
  simp at this

theorem enqueueAllAux_nodup :
    ∀ (ops : List (String × Int)) (t : Nat) (q : List LintQueueItem),
      (q.map LintQueueItem.uri).Nodup →
      ((enqueueAllAux t q ops).map LintQueueItem.uri).Nodup
  | [], _, _, hq => hq
  | (u, p) :: rest, t, q, hq => by
    rw [enqueueAllAux]
    exact enqueueAllAux_nodup rest (t + 1) _ (addToQueue_nodup hq u p t)

/-- C1: for every sequence of enqueue operations, the queue (and hence every
batch drawn from its front, and the remainder) is ordered by strictly
descending priority with FIFO (earlier-enqueue-first) tie-break among equal
priorities; in particular enqueueing A (priority 1), B (priority 100),
C (priority 50) in that order and draining a batch yields [B, C, A]. -/
theorem c1_batch_draw_priority_order_fifo :
    (∀ ops : List (String × Int),
        (enqueueAll ops).Pairwise queueRel ∧
        (processQueueBatch (enqueueAll ops)).1.Pairwise queueRel ∧
        (processQueueBatch (enqueueAll ops)).2.Pairwise queueRel) ∧
      (processQueueBatch (enqueueAll [("A", 1), ("B", 100), ("C", 50)])).1.map
          LintQueueItem.uri = ["B", "C", "A"] := by
  constructor
  · intro ops
    have h := enqueueAll_pairwise ops
    exact ⟨h, h.sublist (List.take_sublist _ _), h.sublist (List.drop_sublist _ _)⟩
  · rfl

/-- C2: every queue operation keeps at most one entry per file identifier;
enqueueing the same file twice with priorities `p1` then `p2` leaves exactly
one entry for it, carrying priority `p2` and the newer timestamp `t2`. -/
theorem c2_enqueue_idempotent_one_entry_per_file :
    (∀ ops : List (String × Int), ((enqueueAll ops).map LintQueueItem.uri).Nodup) ∧
      (∀ (q : List LintQueueItem) (u : String) (p1 p2 : Int) (t1 t2 : Nat),
        (addToQueue (addToQueue q u p1 t1) u p2 t2).filter
            (fun x => x.uri == u) = [LintQueueItem.mk u p2 t2]) := by
  constructor
  · intro ops
    exact enqueueAllAux_nodup ops 0 [] (by simp)
  · intro q u p1 p2 t1 t2
    exact addToQueue_filter_self (addToQueue q u p1 t1) u p2 t2

/-! ## Gitignore-pattern cache (`WorkspaceLinter.loadGitignorePatterns`) -/

/-- `private readonly gitignoreCacheDuration = 30000; // 30 seconds` -/
def gitignoreCacheDuration : Nat := 30000

/-- The two cache fields of `WorkspaceLinter` touched by
`loadGitignorePatterns`. -/
structure GitignoreCache where
  gitignorePatterns : List String
  gitignoreCacheTime : Nat
  deriving Repr, DecidableEq

/-- Outcome of the filesystem interaction inside `loadGitignorePatterns`:
`fs.existsSync` is false, `fs.readFileSync` throws, or the file's text. -/
inductive GitignoreRead where
  | absent
  | readError
  | content (s : String)
  deriving Repr, DecidableEq

/-- JS `content.split('\n')` on the character level. -/
def splitOnNewline : List Char → List (List Char)
  | [] => [[]]
  | c :: rest =>
    let r := splitOnNewline rest
    if c = '\n' then [] :: r
    else
      match r with
      | [] => [[c]]
      | h :: t => (c :: h) :: t

/-- JS `String.prototype.trim()`: strip leading and trailing whitespace
(space, tab, carriage return, newline; JS also strips other Unicode space
characters, which no gitignore pattern in this development contains). -/
def jsTrim (cs : List Char) : List Char :=
  ((cs.dropWhile Char.isWhitespace).reverse.dropWhile Char.isWhitespace).reverse

/-- The parsing loop of `loadGitignorePatterns`: split the file on `'\n'`,
trim each line, keep the non-empty lines not starting with `'#'`. -/
def parseGitignore (content : String) : List String :=
  (((splitOnNewline content.data).map jsTrim).filter
    (fun t => !t.isEmpty && t.head? != some '#')).map String.mk

/-- `WorkspaceLinter.loadGitignorePatterns()` (README-embedded version).
Control flow from the source: return early while the cache is fresh;
otherwise reset `gitignorePatterns` to `[]` first, return if there is no
workspace folder, then inside `try`: if the file exists read and parse it,
and set `gitignoreCacheTime = now` (also on the absent-file path); a thrown
read error is caught (`console.warn`) leaving the freshly emptied pattern
list and the old cache time. -/
def loadGitignorePatterns (st : GitignoreCache) (now : Nat)
    (hasWorkspaceFolders : Bool) (read : GitignoreRead) : GitignoreCache :=
  if now - st.gitignoreCacheTime < gitignoreCacheDuration then st
  else
    let st1 : GitignoreCache := { st with gitignorePatterns := [] }
    if !hasWorkspaceFolders then st1
    else
      match read with
      | .absent => { st1 with gitignoreCacheTime := now }
      | .readError => st1
      | .content s =>
          { gitignorePatterns := parseGitignore s, gitignoreCacheTime := now }

/-- C6 counterexample: a refresh past expiry whose read fails leaves the
empty pattern set, not the pre-refresh set `["node_modules"]` — the claim's
"equals the last-known pattern set from before the refresh" is false. -/
theorem c6_counterexample_failed_refresh_not_last_known :
    (loadGitignorePatterns ⟨["node_modules"], 0⟩ 30000 true
        GitignoreRead.readError).gitignorePatterns ≠ ["node_modules"] ∧
      (loadGitignorePatterns ⟨["node_modules"], 0⟩ 30000 true
        GitignoreRead.readError).gitignorePatterns = [] := by
  constructor
  · decide
  · decide

/-- C6 (amended): when a refresh past cache expiry fails to read the ignore
file (file absent or read error), the operation still completes (the thrown
error is caught, never reaching the caller) and the pattern set afterwards
is the freshly emptied set `[]` — not the last-known set from before the
refresh; on the thrown-error path the cache time is also left unchanged. -/
theorem c6_amended_failed_refresh_empties_patterns
    (st : GitignoreCache) (now : Nat) (hasW : Bool)
    (hexp : ¬ (now - st.gitignoreCacheTime < gitignoreCacheDuration)) :
    (loadGitignorePatterns st now hasW GitignoreRead.readError).gitignorePatterns = [] ∧
      (loadGitignorePatterns st now hasW GitignoreRead.absent).gitignorePatterns = [] ∧
      (loadGitignorePatterns st now hasW GitignoreRead.readError).gitignoreCacheTime
        = st.gitignoreCacheTime := by
  simp only [loadGitignorePatterns, if_neg hexp]
  cases hasW <;> simp

theorem c6_amended_witness :
    (loadGitignorePatterns ⟨["node_modules"], 0⟩ 40000 true
        GitignoreRead.readError).gitignorePatterns = [] ∧
      (loadGitignorePatterns ⟨["node_modules"], 0⟩ 40000 true
        GitignoreRead.absent).gitignorePatterns = [] := by
  have h := c6_amended_failed_refresh_empties_patterns ⟨["node_modules"], 0⟩
    40000 true (by decide)
  exact ⟨h.1, h.2.1⟩

/-- C7: a refresh strictly less than 30 seconds (the cache duration) after
the last load returns the cache unchanged, independent of what is on disk
(no read takes effect); at or after expiry the ignore file is re-read, so a
modified file's parsed patterns become visible and the cache time resets. -/
theorem c7_gitignore_cache_expiry (st : GitignoreCache) (now : Nat) (hasW : Bool) :
    (∀ read : GitignoreRead,
        now - st.gitignoreCacheTime < gitignoreCacheDuration →
        loadGitignorePatterns st now hasW read = st) ∧
      (∀ s : String,
        gitignoreCacheDuration ≤ now - st.gitignoreCacheTime →
        (loadGitignorePatterns st now true (GitignoreRead.content s)).gitignorePatterns
            = parseGitignore s ∧
          (loadGitignorePatterns st now true (GitignoreRead.content s)).gitignoreCacheTime
            = now) := by
  constructor
  · intro read hfresh
    unfold loadGitignorePatterns
    rw [if_pos hfresh]
  · intro s hexp
    unfold loadGitignorePatterns
    rw [if_neg (not_lt.mpr hexp)]
    simp

theorem c7_gitignore_cache_expiry_witness :
    loadGitignorePatterns ⟨["old"], 0⟩ 29999 true (GitignoreRead.content "new")
        = ⟨["old"], 0⟩ ∧
      (loadGitignorePatterns ⟨["old"], 0⟩ 30000 true
          (GitignoreRead.content "new\n#comment\n")).gitignorePatterns = ["new"] := by
  constructor
  · exact (c7_gitignore_cache_expiry ⟨["old"], 0⟩ 29999 true).1
      (GitignoreRead.content "new") (by decide)
  · exact ((c7_gitignore_cache_expiry ⟨["old"], 0⟩ 30000 true).2
      "new\n#comment\n" (by decide)).1.trans (by decide)

/-! ## Glob-style pattern matching (`WorkspaceLinter.matchesPattern`) -/

/-- Tokens of the regex built by `matchesPattern`'s glob conversion. -/
inductive GlobToken where
  | anySeq
  | anyNoSlash
  | anyChar
  | lit (c : Char)
  deriving Repr, DecidableEq

/-- The glob-to-regex conversion in `matchesPattern`: `.` is escaped (hence a
literal), `**` becomes `.*` (any sequence), a remaining single `*` becomes
`[^/]*` (any sequence without `/`), `?` becomes `.` (any one character); all
other characters stand for themselves.  (The code leaves further regex
metacharacters unescaped; none occur in the pattern sets of this repository.) -/
def globTokens : List Char → List GlobToken
  | [] => []
  | '*' :: '*' :: rest => GlobToken.anySeq :: globTokens rest
  | '*' :: rest => GlobToken.anyNoSlash :: globTokens rest
  | '?' :: rest => GlobToken.anyChar :: globTokens rest
  | c :: rest => GlobToken.lit c :: globTokens rest

/-- The suffixes of `cs` reachable by deleting a prefix containing no `'/'`:
the candidate continuations after a `[^/]*` regex piece. -/
def noSlashTails : List Char → List (List Char)
  | [] => [[]]
  | c :: rest => (c :: rest) :: if c = '/' then [] else noSlashTails rest

/-- Anchored matching (`new RegExp('^' + regexPattern + '$').test(filePath)`)
of the converted pattern against the path's characters: `.*` consumes any
prefix (the rest must match some tail), `[^/]*` consumes any slash-free
prefix, `.` consumes one character, a literal consumes itself. -/
def globMatch : List GlobToken → List Char → Bool
  | [], cs => cs.isEmpty
  | GlobToken.lit _ :: _, [] => false
  | GlobToken.lit c :: ts, d :: ds => c == d && globMatch ts ds
  | GlobToken.anyChar :: _, [] => false
  | GlobToken.anyChar :: ts, _ :: ds => globMatch ts ds
  | GlobToken.anySeq :: ts, cs => cs.tails.any (fun s => globMatch ts s)
  | GlobToken.anyNoSlash :: ts, cs => (noSlashTails cs).any (fun s => globMatch ts s)

/-- `WorkspaceLinter.matchesPattern(filePath, pattern)`. -/
def matchesPattern (filePath pattern : String) : Bool :=
  globMatch (globTokens pattern.data) filePath.data

/-- `WorkspaceLinter.matchesGitignore` (README version): true iff any cached
gitignore pattern matches.  The source converts the absolute path to a
workspace-relative one via `vscode.workspace.asRelativePath` (a host
computation); the relative path is taken as the argument here. -/
def matchesGitignore (relativePath : String) (gitignorePatterns : List String) : Bool :=
  gitignorePatterns.any (fun pattern => matchesPattern relativePath pattern)

/-! ## `path.extname` and the extension eligibility check -/

/-- Split a character list on a separator (used for `'/'` path components). -/
def splitOnChar (sep : Char) : List Char → List (List Char)
  | [] => [[]]
  | c :: rest =>
    let r := splitOnChar sep rest
    if c = sep then [] :: r
    else
      match r with
      | [] => [[c]]
      | h :: t => (c :: h) :: t

/-- Index of the last `'.'` in a name, counting from `start`. -/
def lastDotIndexFrom : List Char → Nat → Option Nat
  | [], _ => none
  | c :: rest, i =>
    match lastDotIndexFrom rest (i + 1) with
    | some j => some j
    | none => if c = '.' then some i else none

/-- Node's `path.extname(p)`: the substring of the basename from its last
`'.'` (inclusive) to the end; empty when the basename has no dot or only a
leading dot (dotfile). -/
def extname (p : String) : String :=
  let base := (splitOnChar '/' p.data).getLastD []
  match lastDotIndexFrom base 0 with
  | some i => if i = 0 then "" else String.mk (base.drop i)
  | none => ""

/-- `path.extname(filePath).slice(1).toLowerCase()` as computed in
`shouldLintFile` and `lintSingleFile`: the extension without its dot,
lowercased. -/
def fileExtension (filePath : String) : String :=
  String.mk (((extname filePath).data.drop 1).map Char.toLower)

/-! ## Linter registry: the adapters' `getSupportedExtensions()` -/

/-- `TypeScriptLinter.getSupportedExtensions()`
(`src/linters/typescriptLinter.ts`): note the leading dots. -/
def TypeScriptLinter.getSupportedExtensions : List String := [".ts", ".tsx"]

/-- `JavaScriptLinter.getSupportedExtensions()`
(`src/linters/javascriptLinter.ts`): `['js', 'mjs']`, plus `'jsx'` when
`config.javascript.enableJSX` (default true) is set. -/
def JavaScriptLinter.getSupportedExtensions (enableJSX : Bool) : List String :=
  ["js", "mjs"] ++ if enableJSX then ["jsx"] else []

/-- `PythonLinter.getSupportedExtensions()` (`src/linters/pythonLinter.ts`). -/
def PythonLinter.getSupportedExtensions : List String := ["py", "pyw"]

/-- `HTMLLinter.getSupportedExtensions()` (`src/linters/htmlLinter.ts`):
note the leading dots. -/
def HTMLLinter.getSupportedExtensions : List String := [".html", ".htm", ".xhtml"]

/-- `CSSLinter.getSupportedExtensions()` (`src/linters/cssLinter.ts`). -/
def CSSLinter.getSupportedExtensions : List String := ["css", "scss", "sass", "less"]

/-- The registry built by `WorkspaceLinter.initializeLinters()` with all five
languages enabled (the default `enabledLanguages`), as name ↦ supported
extensions. -/
def registryExtensions (enableJSX : Bool) : List (String × List String) :=
  [("typescript", TypeScriptLinter.getSupportedExtensions),
   ("javascript", JavaScriptLinter.getSupportedExtensions enableJSX),
   ("python", PythonLinter.getSupportedExtensions),
   ("html", HTMLLinter.getSupportedExtensions),
   ("css", CSSLinter.getSupportedExtensions)]

/-- `WorkspaceLinter.getSupportedExtensions()`: the union of extension sets of
all registered linters (a JS `Set` keeps first-insertion order). -/
def getSupportedExtensionsUnion (reg : List (String × List String)) : List String :=
  reg.foldl (fun acc entry =>
    entry.2.foldl (fun acc2 e => if acc2.contains e then acc2 else acc2 ++ [e]) acc) []

/-- The hardcoded `linterMap` of `WorkspaceLinter.getLinterForExtension`. -/
def linterMap : List (String × String) :=
  [("ts", "typescript"), ("tsx", "typescript"), ("js", "javascript"),
   ("jsx", "javascript"), ("mjs", "javascript"), ("py", "python"),
   ("html", "html"), ("htm", "html"), ("css", "css"), ("scss", "css"),
   ("sass", "css"), ("less", "css")]

/-- `WorkspaceLinter.getLinterForExtension(ext)`: look the extension up in
`linterMap`, then in the registered-linters map; `undefined` (none) on either
miss. -/
def getLinterForExtension (registered : List String) (ext : String) : Option String :=
  match (linterMap.find? (fun kv => kv.1 == ext)).map Prod.snd with
  | some name => if registered.contains name then some name else none
  | none => none

/-- `WorkspaceLinter.shouldLintFile(uri)`: rejected if a gitignore pattern
matches, then if a configured exclude pattern matches, then accepted iff the
dot-stripped lowercased extension is in the union of the registered linters'
extension sets.  `filePath` is `uri.fsPath`, `relativePath` the host's
`asRelativePath(uri)`. -/
def shouldLintFile (gitignorePatterns excludePatterns supportedExtensions : List String)
    (filePath relativePath : String) : Bool :=
  if matchesGitignore relativePath gitignorePatterns then false
  else if excludePatterns.any (fun pattern => matchesPattern relativePath pattern) then false
  else supportedExtensions.contains (fileExtension filePath)

/-- The default `excludePatterns` loaded by
`WorkspaceLinter.loadConfiguration()`. -/
def defaultExcludePatterns : List String :=
  ["**/node_modules/**", "**/dist/**", "**/build/**", "**/out/**",
   "**/.git/**", "**/*.min.js", "**/*.min.css"]

/-- C4 (evaluation of the code at the failing input `app.ts`): the
TypeScript adapter's `getSupportedExtensions()` returns `'.ts'` with a
leading dot, so the orchestrator's eligibility check — which strips the dot
from the file's extension before comparing — rejects `app.ts` even though
the orchestrator's own dispatch map routes extension `ts` to the registered
TypeScript linter.  This refutes the claim that every adapter returns
dot-less extensions and that the check accepts exactly the supported files. -/
theorem c4_typescript_extensions_carry_leading_dot :
    ".ts" ∈ TypeScriptLinter.getSupportedExtensions ∧
      ".ts".data.head? = some '.' ∧
      fileExtension "app.ts" = "ts" ∧
      shouldLintFile [] defaultExcludePatterns
        (getSupportedExtensionsUnion (registryExtensions true)) "app.ts" "app.ts" = false ∧
      getLinterForExtension ["typescript", "javascript", "python", "html", "css"]
        (fileExtension "app.ts") = some "typescript" := by
  refine ⟨by decide, by decide, by decide, by decide, by decide⟩

/-! ## The file-limit prompt in `WorkspaceLinter.lintWorkspace` -/

/-- The three buttons of the `showWarningMessage` prompt; `yes` also stands
for a dismissed dialog (the code only tests for `'Cancel'` and
`'Lint First 1000'` and otherwise proceeds with all files). -/
inductive LimitChoice where
  | yes
  | lintFirst1000
  | cancel
  deriving Repr, DecidableEq

/-- The file-limit check of `lintWorkspace()`: when more files were
discovered than `this.configCache?.maxFiles || 1000` (JS `||`: a zero or
absent setting falls back to 1000), the user chooses; `'Cancel'` returns
with nothing processed, `'Lint First 1000'` does `files.splice(1000)` —
keeping the first 1000 files regardless of `maxFiles` — and any other answer
proceeds with all files.  Within the limit no prompt is shown. -/
def lintWorkspaceSelect (maxFiles : Nat) (files : List String)
    (choice : LimitChoice) : List String :=
  if files.length > (if maxFiles = 0 then 1000 else maxFiles) then
    match choice with
    | LimitChoice.cancel => []
    | LimitChoice.lintFirst1000 => files.take 1000
    | LimitChoice.yes => files
  else files

/-- `processFilesWithProgress`: every selected file is added to the queue at
low priority 1, in discovery order. -/
def enqueueFiles (files : List String) : List LintQueueItem :=
  enqueueAll (files.map (fun f => (f, (1 : Int))))

/-- Enqueueing distinct files at one common priority appends them to the
queue in order: the stable sort leaves an all-equal-priority queue unchanged. -/
theorem enqueueAllAux_uniform_priority :
    ∀ (fs : List String) (t : Nat) (q : List LintQueueItem),
      (∀ x ∈ q, x.priority = 1) →
      (q.map LintQueueItem.uri ++ fs).Nodup →
      (enqueueAllAux t q (fs.map (fun f => (f, (1 : Int))))).map LintQueueItem.uri
        = q.map LintQueueItem.uri ++ fs
  | [], _, q, _, _ => by simp [enqueueAllAux]
  | f :: rest, t, q, hp, hnd => by
    rw [List.map_cons, enqueueAllAux]
    have hf_notin : f ∉ q.map LintQueueItem.uri := by
      rcases List.nodup_append.mp hnd with ⟨_, _, hdisj⟩
      intro hmem
      exact hdisj hmem (List.mem_cons_self f rest)
    have hfilter : q.filter (fun item => item.uri != f) = q := by
      apply List.filter_eq_self.mpr
      intro x hx
      simp only [bne_iff_ne, ne_eq, decide_eq_true_eq]
      intro hxf
      exact hf_notin (hxf ▸ List.mem_map_of_mem LintQueueItem.uri hx)
    have hsorted : (q ++ [LintQueueItem.mk f 1 t]).Pairwise queueOrder := by
      apply List.pairwise_of_forall_mem_list
      intro a ha b hb
      have pa : a.priority = 1 := by
        rcases List.mem_append.mp ha with h | h
        · exact hp a h
        · rw [List.mem_singleton] at h; rw [h]
      have pb : b.priority = 1 := by
        rcases List.mem_append.mp hb with h | h
        · exact hp b h
        · rw [List.mem_singleton] at h; rw [h]
      show b.priority ≤ a.priority
      rw [pa, pb]
    have haddq : addToQueue q f 1 t = q ++ [LintQueueItem.mk f 1 t] := by
      unfold addToQueue
      rw [hfilter]
      exact List.Sorted.insertionSort_eq hsorted
    rw [haddq]
    have hp' : ∀ x ∈ q ++ [LintQueueItem.mk f 1 t], x.priority = 1 := by
      intro x hx
      rcases List.mem_append.mp hx with h | h
      · exact hp x h
      · rw [List.mem_singleton] at h; rw [h]
    have hnd' : ((q ++ [LintQueueItem.mk f 1 t]).map LintQueueItem.uri ++ rest).Nodup := by
      rw [List.map_append, List.map_singleton, List.append_assoc]
      simpa using hnd
    rw [enqueueAllAux_uniform_priority rest (t + 1) _ hp' hnd']
    rw [List.map_append, List.map_singleton, List.append_assoc]
    rfl

/-- C5 counterexample: with `maxFiles = 500` and 1500 discovered files,
choosing "truncate" processes the first 1000 files (the hardcoded
`files.splice(1000)`), not the first `maxFiles = 500` — refuting
"exactly the first maxFiles files". -/
theorem c5_counterexample_truncate_ignores_maxfiles :
    (lintWorkspaceSelect 500 (List.replicate 1500 "f.ts")
        LimitChoice.lintFirst1000).length = 1000 ∧
      (lintWorkspaceSelect 500 (List.replicate 1500 "f.ts")
        LimitChoice.lintFirst1000).length ≠ 500 := by
  have hsel : lintWorkspaceSelect 500 (List.replicate 1500 "f.ts")
      LimitChoice.lintFirst1000 = (List.replicate 1500 "f.ts").take 1000 := by
    unfold lintWorkspaceSelect
    rw [if_pos (by norm_num)]
  have hlen : (lintWorkspaceSelect 500 (List.replicate 1500 "f.ts")
      LimitChoice.lintFirst1000).length = 1000 := by
    rw [hsel, List.length_take, List.length_replicate]
    omega
  exact ⟨hlen, by rw [hlen]; omega⟩

/-- C5 (amended): when discovery returns more files than the effective
maximum (`maxFiles`, or 1000 when that is zero/absent), the three-way choice
applies: cancel processes nothing, truncate processes exactly the first 1000
files (the hardcoded truncation bound, which equals `maxFiles` for the
default `maxFiles = 1000`), and proceed-with-all processes everything; at or
below the limit all files are processed without a prompt; the selected files
are enqueued and drained in original discovery order. -/
theorem c5_amended_file_limit_choice (maxFiles : Nat) (files : List String)
    (choice : LimitChoice) :
    (files.length ≤ (if maxFiles = 0 then 1000 else maxFiles) →
        lintWorkspaceSelect maxFiles files choice = files) ∧
      ((if maxFiles = 0 then 1000 else maxFiles) < files.length →
        lintWorkspaceSelect maxFiles files LimitChoice.cancel = [] ∧
          lintWorkspaceSelect maxFiles files LimitChoice.lintFirst1000 = files.take 1000 ∧
          lintWorkspaceSelect maxFiles files LimitChoice.yes = files) ∧
      (files.Nodup →
        (enqueueFiles (lintWorkspaceSelect maxFiles files choice)).map LintQueueItem.uri
          = lintWorkspaceSelect maxFiles files choice) := by
  refine ⟨?_, ?_, ?_⟩
  · intro hle
    unfold lintWorkspaceSelect
    rw [if_neg (by omega)]
  · intro hgt
    unfold lintWorkspaceSelect
    rw [if_pos (by omega), if_pos (by omega), if_pos (by omega)]
    exact ⟨rfl, rfl, rfl⟩
  · intro hnd
    have hsel : (lintWorkspaceSelect maxFiles files choice).Nodup := by
      unfold lintWorkspaceSelect
      by_cases hc : files.length > (if maxFiles = 0 then 1000 else maxFiles)
      · rw [if_pos hc]
        cases choice with
        | yes => exact hnd
        | lintFirst1000 => exact hnd.sublist (List.take_sublist 1000 files)
        | cancel => exact List.nodup_nil
      · rw [if_neg hc]
        exact hnd
    have := enqueueAllAux_uniform_priority (lintWorkspaceSelect maxFiles files choice)
      0 [] (by simp) (by simpa using hsel)
    simpa [enqueueFiles, enqueueAll] using this

theorem c5_amended_file_limit_choice_witness :
    lintWorkspaceSelect 2 ["a.ts", "b.ts", "c.ts"] LimitChoice.cancel = [] ∧
      lintWorkspaceSelect 2 ["a.ts", "b.ts", "c.ts"] LimitChoice.lintFirst1000
        = ["a.ts", "b.ts", "c.ts"].take 1000 ∧
      (enqueueFiles (lintWorkspaceSelect 2 ["a.ts", "b.ts", "c.ts"]
          LimitChoice.lintFirst1000)).map LintQueueItem.uri
        = lintWorkspaceSelect 2 ["a.ts", "b.ts", "c.ts"] LimitChoice.lintFirst1000 := by
  have h1 := (c5_amended_file_limit_choice 2 ["a.ts", "b.ts", "c.ts"]
    LimitChoice.lintFirst1000).2.1 (by decide)
  have h2 := (c5_amended_file_limit_choice 2 ["a.ts", "b.ts", "c.ts"]
    LimitChoice.lintFirst1000).2.2 (by decide)
  exact ⟨h1.1, h1.2.1, h2⟩

/-! ## Diagnostic provider (`src/diagnosticProvider.ts`) -/

/-- `LintIssue.severity : 'error' | 'warning' | 'info'`. -/
inductive IssueSeverity where
  | error
  | warning
  | info
  deriving Repr, DecidableEq

/-- `LintIssue` from `diagnosticProvider.ts`. -/
structure LintIssue where
  message : String
  severity : IssueSeverity
  line : Int
  column : Int
  endLine : Option Int := none
  endColumn : Option Int := none
  source : String
  code : Option (Sum String Int) := none
  ruleId : Option String := none
  deriving Repr, DecidableEq

/-- `vscode.DiagnosticSeverity`; the enum codes (Error = 0, Warning = 1,
Information = 2, Hint = 3) matter for JS truthiness. -/
inductive DiagnosticSeverity where
  | error
  | warning
  | information
  | hint
  deriving Repr, DecidableEq

/-- The numeric value of the `vscode.DiagnosticSeverity` enum member. -/
def DiagnosticSeverity.toCode : DiagnosticSeverity → Nat
  | DiagnosticSeverity.error => 0
  | DiagnosticSeverity.warning => 1
  | DiagnosticSeverity.information => 2
  | DiagnosticSeverity.hint => 3

/-- `vscode.Diagnostic.code`: a string, a number, or a `{value, target}`
link object. -/
inductive DiagnosticCode where
  | str (s : String)
  | num (n : Int)
  | link (value : String) (target : String)
  deriving Repr, DecidableEq

/-- `vscode.Diagnostic` as used by the provider: a range (start/end line and
character, 0-based), message, severity, source and code. -/
structure Diagnostic where
  startLine : Int
  startCharacter : Int
  endLine : Int
  endCharacter : Int
  message : String
  severity : DiagnosticSeverity
  source : Option String := none
  code : Option DiagnosticCode := none
  deriving Repr, DecidableEq

/-- JS truthiness of a possibly-undefined number (`0` is falsy). -/
def jsTruthyInt : Option Int → Bool
  | none => false
  | some v => v != 0

/-- JS truthiness of a possibly-undefined string (`''` is falsy). -/
def jsTruthyStr : Option String → Bool
  | none => false
  | some s => !s.data.isEmpty

/-- `DiagnosticProvider.mapSeverity`. -/
def mapSeverity : IssueSeverity → DiagnosticSeverity
  | IssueSeverity.error => DiagnosticSeverity.error
  | IssueSeverity.warning => DiagnosticSeverity.warning
  | IssueSeverity.info => DiagnosticSeverity.information

/-- `DiagnosticProvider.mapDiagnosticSeverityToString` (the `switch`
statement only; its argument has already passed the caller's
`diagnostic.severity || Warning` defaulting). -/
def mapDiagnosticSeverityToString : DiagnosticSeverity → IssueSeverity
  | DiagnosticSeverity.error => IssueSeverity.error
  | DiagnosticSeverity.warning => IssueSeverity.warning
  | DiagnosticSeverity.information => IssueSeverity.info
  | DiagnosticSeverity.hint => IssueSeverity.info

/-- `DiagnosticProvider.convertIssueToDiagnostic`: clamp the 1-based issue
positions to 0-based non-negative ones; a missing (or JS-falsy) end position
falls back to the start (column start + 1); `code` is set from `issue.code`
and then overwritten by a link object when `issue.ruleId` is truthy. -/
def convertIssueToDiagnostic (issue : LintIssue) : Diagnostic :=
  let startLine := max 0 (issue.line - 1)
  let startColumn := max 0 (issue.column - 1)
  let endLine := if jsTruthyInt issue.endLine then max 0 (issue.endLine.getD 0 - 1)
    else startLine
  let endColumn := if jsTruthyInt issue.endColumn then max 0 (issue.endColumn.getD 0 - 1)
    else startColumn + 1
  let code0 : Option DiagnosticCode :=
    match issue.code with
    | some (Sum.inl s) => some (DiagnosticCode.str s)
    | some (Sum.inr n) => some (DiagnosticCode.num n)
    | none => none
  let code1 : Option DiagnosticCode :=
    if jsTruthyStr issue.ruleId then
      some (DiagnosticCode.link (issue.ruleId.getD "")
        ("https://example.com/rules/" ++ issue.ruleId.getD ""))
    else code0
  { startLine := startLine, startCharacter := startColumn,
    endLine := endLine, endCharacter := endColumn,
    message := issue.message, severity := mapSeverity issue.severity,
    source := some ("AutoLinter (" ++ issue.source ++ ")"),
    code := code1 }

/-- `DiagnosticProvider.convertIssuesToDiagnostics`. -/
def convertIssuesToDiagnostics (issues : List LintIssue) : List Diagnostic :=
  issues.map convertIssueToDiagnostic

/-- JS `String.prototype.replace` with a string pattern: replace the first
occurrence only. -/
def jsReplaceFirst (pat repl : List Char) : List Char → List Char
  | [] => if pat.isEmpty then repl else []
  | c :: rest =>
    if pat.isPrefixOf (c :: rest) then repl ++ (c :: rest).drop pat.length
    else c :: jsReplaceFirst pat repl rest

/-- `diagnostic.source?.replace('AutoLinter (', '').replace(')', '') || 'unknown'`:
undefined source, or an empty string after the replacements, yields
`'unknown'`. -/
def sourceBack (src : Option String) : String :=
  match src with
  | none => "unknown"
  | some s =>
    let r := String.mk (jsReplaceFirst ")".data []
      (jsReplaceFirst "AutoLinter (".data [] s.data))
    if r = "" then "unknown" else r

/-- `DiagnosticProvider.convertDiagnosticsToIssues` (used by
`addDiagnostics` to recompute statistics).  `diagnostic.severity ||
DiagnosticSeverity.Warning`: the Error member has enum code 0, which is
JS-falsy, so Error-severity diagnostics are defaulted to Warning before the
severity switch. -/
def convertDiagnosticsToIssues (diagnostics : List Diagnostic) : List LintIssue :=
  diagnostics.map fun d =>
    { message := d.message,
      severity := mapDiagnosticSeverityToString
        (if d.severity.toCode = 0 then DiagnosticSeverity.warning else d.severity),
      line := d.startLine + 1,
      column := d.startCharacter + 1,
      endLine := some (d.endLine + 1),
      endColumn := some (d.endCharacter + 1),
      source := sourceBack d.source,
      code :=
        match d.code with
        | some (DiagnosticCode.link v _) => some (Sum.inl v)
        | some (DiagnosticCode.str s) => some (Sum.inl s)
        | some (DiagnosticCode.num n) => some (Sum.inr n)
        | none => none,
      ruleId := none }

/-- Per-file counters stored in `DiagnosticStats.fileStats`. -/
structure FileStats where
  errors : Nat
  warnings : Nat
  info : Nat
  deriving Repr, DecidableEq

/-- JS `Map.prototype.set`: replace in place when the key exists, otherwise
append (a JS `Map` is insertion-ordered). -/
def mapSet {β : Type} (m : List (String × β)) (k : String) (v : β) :
    List (String × β) :=
  if m.any (fun kv => kv.1 == k) then
    m.map (fun kv => if kv.1 == k then (k, v) else kv)
  else m ++ [(k, v)]

/-- JS `Map.prototype.delete`. -/
def mapDelete {β : Type} (m : List (String × β)) (k : String) :
    List (String × β) :=
  m.filter (fun kv => !(kv.1 == k))

/-- JS `Map.prototype.get` (`undefined` = `none`). -/
def mapGet {β : Type} (m : List (String × β)) (k : String) : Option β :=
  (m.find? (fun kv => kv.1 == k)).map Prod.snd

/-- `DiagnosticStats` from `diagnosticProvider.ts`. -/
structure DiagnosticStats where
  totalFiles : Nat
  totalIssues : Nat
  errorCount : Nat
  warningCount : Nat
  infoCount : Nat
  fileStats : List (String × FileStats)
  deriving Repr, DecidableEq

/-- `DiagnosticProvider.recalculateTotalStats`: `totalFiles` becomes the map
size, the three severity counters are re-accumulated over `fileStats` (one
loop in the source, split here into one fold per counter), and
`totalIssues` is their sum. -/
def recalculateTotalStats (s : DiagnosticStats) : DiagnosticStats :=
  let errorCount := s.fileStats.foldl (fun acc kv => acc + kv.2.errors) 0
  let warningCount := s.fileStats.foldl (fun acc kv => acc + kv.2.warnings) 0
  let infoCount := s.fileStats.foldl (fun acc kv => acc + kv.2.info) 0
  { totalFiles := s.fileStats.length,
    totalIssues := errorCount + warningCount + infoCount,
    errorCount := errorCount, warningCount := warningCount,
    infoCount := infoCount, fileStats := s.fileStats }

/-- `DiagnosticProvider.removeFileStats`. -/
def removeFileStats (filePath : String) (s : DiagnosticStats) : DiagnosticStats :=
  recalculateTotalStats { s with fileStats := mapDelete s.fileStats filePath }

/-- `DiagnosticProvider.updateFileStats`: drop the file's old entry, store
the fresh per-severity counts, recalculate the totals. -/
def updateFileStats (filePath : String) (issues : List LintIssue)
    (s : DiagnosticStats) : DiagnosticStats :=
  let s1 := removeFileStats filePath s
  let fileStats : FileStats :=
    { errors := (issues.filter (fun i => i.severity == IssueSeverity.error)).length,
      warnings := (issues.filter (fun i => i.severity == IssueSeverity.warning)).length,
      info := (issues.filter (fun i => i.severity == IssueSeverity.info)).length }
  recalculateTotalStats { s1 with fileStats := mapSet s1.fileStats filePath fileStats }

/-- `DiagnosticProvider.resetStats`. -/
def resetStats : DiagnosticStats :=
  { totalFiles := 0, totalIssues := 0, errorCount := 0, warningCount := 0,
    infoCount := 0, fileStats := [] }

/-- The observable state of a `DiagnosticProvider`: its diagnostic
collection (uri ↦ published diagnostics) and its statistics. -/
structure DiagnosticProviderState where
  diagnosticCollection : List (String × List Diagnostic)
  diagnosticStats : DiagnosticStats
  deriving Repr, DecidableEq

/-- The provider's constructor state: empty collection, zeroed statistics. -/
def initialDiagnosticProvider : DiagnosticProviderState :=
  { diagnosticCollection := [], diagnosticStats := resetStats }

/-- `DiagnosticProvider.setDiagnostics(uri, issues)`: replace the file's
collection entry with the converted issues and refresh its statistics. -/
def setDiagnostics (dp : DiagnosticProviderState) (uri : String)
    (issues : List LintIssue) : DiagnosticProviderState :=
  { diagnosticCollection :=
      mapSet dp.diagnosticCollection uri (convertIssuesToDiagnostics issues),
    diagnosticStats := updateFileStats uri issues dp.diagnosticStats }

/-- `DiagnosticProvider.addDiagnostics(uri, issues)`: append the converted
issues to the file's existing diagnostics and recompute the file's
statistics from the combined list (converted back to issues). -/
def addDiagnostics (dp : DiagnosticProviderState) (uri : String)
    (issues : List LintIssue) : DiagnosticProviderState :=
  let existing := (mapGet dp.diagnosticCollection uri).getD []
  let combined := existing ++ convertIssuesToDiagnostics issues
  { diagnosticCollection := mapSet dp.diagnosticCollection uri combined,
    diagnosticStats :=
      updateFileStats uri (convertDiagnosticsToIssues combined) dp.diagnosticStats }

/-- `DiagnosticProvider.clearDiagnostics(uri)`. -/
def clearDiagnostics (dp : DiagnosticProviderState) (uri : String) :
    DiagnosticProviderState :=
  { diagnosticCollection := mapDelete dp.diagnosticCollection uri,
    diagnosticStats := removeFileStats uri dp.diagnosticStats }

/-- `DiagnosticProvider.clearAllDiagnostics()`: `collection.clear()` plus
`resetStats()`. -/
def clearAllDiagnostics (dp : DiagnosticProviderState) : DiagnosticProviderState :=
  { diagnosticCollection := [], diagnosticStats := resetStats }

/-- The public mutating operations of `DiagnosticProvider`. -/
inductive DiagnosticOp where
  | set (uri : String) (issues : List LintIssue)
  | add (uri : String) (issues : List LintIssue)
  | clear (uri : String)
  | clearAll
  deriving Repr

def applyDiagnosticOp (dp : DiagnosticProviderState) : DiagnosticOp → DiagnosticProviderState
  | DiagnosticOp.set uri issues => setDiagnostics dp uri issues
  | DiagnosticOp.add uri issues => addDiagnostics dp uri issues
  | DiagnosticOp.clear uri => clearDiagnostics dp uri
  | DiagnosticOp.clearAll => clearAllDiagnostics dp

def applyDiagnosticOps (dp : DiagnosticProviderState) (ops : List DiagnosticOp) :
    DiagnosticProviderState :=
  ops.foldl applyDiagnosticOp dp

/-- Internal consistency of `DiagnosticStats`: the redundant counters agree
with the per-file map. -/
def statsConsistent (s : DiagnosticStats) : Prop :=
  s.totalFiles = s.fileStats.length ∧
    s.errorCount = (s.fileStats.map (fun kv => kv.2.errors)).sum ∧
    s.warningCount = (s.fileStats.map (fun kv => kv.2.warnings)).sum ∧
    s.infoCount = (s.fileStats.map (fun kv => kv.2.info)).sum ∧
    s.totalIssues = s.errorCount + s.warningCount + s.infoCount

theorem foldl_add_eq_sum {α : Type} (f : α → Nat) :
    ∀ (l : List α) (n : Nat),
      l.foldl (fun acc x => acc + f x) n = n + (l.map f).sum
  | [], n => by simp
  | x :: l, n => by
    rw [List.foldl_cons, foldl_add_eq_sum f l (n + f x), List.map_cons, List.sum_cons]
    omega

theorem statsConsistent_recalculate (s : DiagnosticStats) :
    statsConsistent (recalculateTotalStats s) := by
  unfold statsConsistent recalculateTotalStats
  refine ⟨rfl, ?_, ?_, ?_, rfl⟩ <;> simp [foldl_add_eq_sum]

theorem statsConsistent_applyOp (dp : DiagnosticProviderState) (op : DiagnosticOp) :
    statsConsistent (applyDiagnosticOp dp op).diagnosticStats := by
  cases op with
  | set uri issues => exact statsConsistent_recalculate _
  | add uri issues => exact statsConsistent_recalculate _
  | clear uri => exact statsConsistent_recalculate _
  | clearAll => exact ⟨rfl, rfl, rfl, rfl, rfl⟩

theorem statsConsistent_applyOps :
    ∀ (ops : List DiagnosticOp) (dp : DiagnosticProviderState),
      statsConsistent dp.diagnosticStats →
      statsConsistent (applyDiagnosticOps dp ops).diagnosticStats
  | [], _, h => h
  | op :: rest, dp, _ =>
    statsConsistent_applyOps rest (applyDiagnosticOp dp op)
      (statsConsistent_applyOp dp op)

/-- C10: after every sequence of public `DiagnosticProvider` operations
(`setDiagnostics`, `addDiagnostics`, `clearDiagnostics`,
`clearAllDiagnostics`), the statistics are internally consistent:
`totalFiles` is the number of `fileStats` entries, each severity counter is
the sum of the corresponding per-file counts, and `totalIssues` is the sum
of the three counters. -/
theorem c10_diagnostic_stats_internally_consistent (ops : List DiagnosticOp) :
    statsConsistent (applyDiagnosticOps initialDiagnosticProvider ops).diagnosticStats :=
  statsConsistent_applyOps ops initialDiagnosticProvider ⟨rfl, rfl, rfl, rfl, rfl⟩

/-! ## Map lookup lemmas -/

/-- `DiagnosticProvider.getDiagnostics(uri)`: the collection's entry for the
file, `undefined` (none) when absent. -/
def getDiagnostics (dp : DiagnosticProviderState) (uri : String) :
    Option (List Diagnostic) :=
  mapGet dp.diagnosticCollection uri

theorem mapGet_map_replace {β : Type} :
    ∀ (m : List (String × β)) (k : String) (v : β),
      m.any (fun kv => kv.1 == k) = true →
      mapGet (m.map (fun kv => if kv.1 == k then (k, v) else kv)) k = some v
  | [], _, _, h => by simp at h
  | kv :: rest, k, v, h => by
    cases hk : (kv.1 == k) with
    | true => simp [mapGet, List.find?, hk]
    | false =>
      have hrest : rest.any (fun kv => kv.1 == k) = true := by
        simpa [hk] using h
      have := mapGet_map_replace rest k v hrest
      simpa [mapGet, List.find?, hk] using this

theorem mapGet_append_single_self {β : Type} :
    ∀ (m : List (String × β)) (k : String) (v : β),
      m.any (fun kv => kv.1 == k) = false →
      mapGet (m ++ [(k, v)]) k = some v
  | [], k, v, _ => by simp [mapGet, List.find?]
  | kv :: rest, k, v, h => by
    have hk : (kv.1 == k) = false := by
      have := List.any_eq_false.mp h kv (List.mem_cons_self kv rest)
      simpa using this
    have hrest : rest.any (fun kv => kv.1 == k) = false := by
      apply List.any_eq_false.mpr
      intro x hx
      exact List.any_eq_false.mp h x (List.mem_cons_of_mem kv hx)
    have := mapGet_append_single_self rest k v hrest
    rw [List.cons_append]
    simpa [mapGet, List.find?, hk] using this

/-- `Map.set` then `Map.get` of the same key yields the stored value. -/
theorem mapGet_mapSet_self {β : Type} (m : List (String × β)) (k : String) (v : β) :
    mapGet (mapSet m k v) k = some v := by
  unfold mapSet
  cases h : m.any (fun kv => kv.1 == k) with
  | true =>
    simp only [if_true]
    exact mapGet_map_replace m k v h
  | false =>
    simp only [Bool.false_eq_true, if_false]
    exact mapGet_append_single_self m k v h

/-- `Map.set` leaves other keys' lookups unchanged. -/
theorem mapGet_mapSet_ne {β : Type} :
    ∀ (m : List (String × β)) (k : String) (v : β) (k' : String), k' ≠ k →
      mapGet (mapSet m k v) k' = mapGet m k'
  | m, k, v, k', hne => by
    have hkk : (k == k') = false := by
      simp only [beq_eq_false_iff_ne]
      exact fun hkk => hne hkk.symm
    unfold mapSet
    cases h : m.any (fun kv => kv.1 == k) with
    | true =>
      simp only [if_true]
      clear h
      induction m with
      | nil => rfl
      | cons kv rest ih =>
        cases hk : (kv.1 == k) with
        | true =>
          have hkv : kv.1 = k := by simpa using hk
          have h2 : (kv.1 == k') = false := by rw [hkv]; exact hkk
          simpa [mapGet, List.find?, hk, h2, hkk] using ih
        | false =>
          cases hq : (kv.1 == k') with
          | true => simp [mapGet, List.find?, hk, hq]
          | false => simpa [mapGet, List.find?, hk, hq] using ih
    | false =>
      simp only [Bool.false_eq_true, if_false]
      clear h
      induction m with
      | nil => simp [mapGet, List.find?, hkk]
      | cons kv rest ih =>
        rw [List.cons_append]
        cases hq : (kv.1 == k') with
        | true => simp [mapGet, List.find?, hq]
        | false => simpa [mapGet, List.find?, hq] using ih

/-- `Map.delete` then `Map.get` of the same key yields `undefined`. -/
theorem mapGet_mapDelete_self {β : Type} (m : List (String × β)) (k : String) :
    mapGet (mapDelete m k) k = none := by
  unfold mapGet mapDelete
  rw [List.find?_eq_none.mpr]
  · rfl
  · intro kv hkv
    have := List.of_mem_filter hkv
    simpa using this

/-- `Map.delete` leaves other keys' lookups unchanged. -/
theorem mapGet_mapDelete_ne {β : Type} :
    ∀ (m : List (String × β)) (k : String) (k' : String), k' ≠ k →
      mapGet (mapDelete m k) k' = mapGet m k'
  | m, k, k', hne => by
    induction m with
    | nil => rfl
    | cons kv rest ih =>
      cases hk : (kv.1 == k) with
      | true =>
        have hkv : kv.1 = k := by simpa using hk
        have h2 : (kv.1 == k') = false := by
          rw [hkv]
          simp only [beq_eq_false_iff_ne]
          exact fun hkk => hne hkk.symm
        simpa [mapGet, mapDelete, List.filter_cons, List.find?, hk, h2] using ih
      | false =>
        cases hq : (kv.1 == k') with
        | true => simp [mapGet, mapDelete, List.filter_cons, List.find?, hk, hq]
        | false => simpa [mapGet, mapDelete, List.filter_cons, List.find?, hk, hq] using ih

/-! ## Per-file dispatch (`WorkspaceLinter.lintSingleFile`) and batch loop -/

/-- `WorkspaceLinter.lintSingleFile(uri)`: resolve the file's dot-stripped
lowercased extension to a registered linter (skip with a log when none);
await `linter.lint(uri)` — its outcome is the external input `lintResult` —
and on success `setDiagnostics(uri, issues)`, while a thrown error is caught
and `clearDiagnostics(uri)` removes any stale diagnostics. -/
def lintSingleFile (registered : List String)
    (lintResult : String → Except Unit (List LintIssue))
    (dp : DiagnosticProviderState) (uri : String) : DiagnosticProviderState :=
  match getLinterForExtension registered (fileExtension uri) with
  | none => dp
  | some _ =>
    match lintResult uri with
    | Except.ok issues => setDiagnostics dp uri issues
    | Except.error _ => clearDiagnostics dp uri

/-- The item loop of `WorkspaceLinter.processQueue` over a drawn batch: each
item is linted inside its own `try/catch` (and `lintSingleFile` already
catches adapter errors), so the loop always continues to the next item. -/
def processBatch (registered : List String)
    (lintResult : String → Except Unit (List LintIssue))
    (dp : DiagnosticProviderState) (batch : List LintQueueItem) :
    DiagnosticProviderState :=
  batch.foldl (fun acc item => lintSingleFile registered lintResult acc item.uri) dp

theorem getDiagnostics_lintSingleFile_self (registered : List String)
    (f : String → Except Unit (List LintIssue)) (dp : DiagnosticProviderState)
    (u : String)
    (hroute : (getLinterForExtension registered (fileExtension u)).isSome = true) :
    getDiagnostics (lintSingleFile registered f dp u) u =
      match f u with
      | Except.ok issues => some (convertIssuesToDiagnostics issues)
      | Except.error _ => none := by
  obtain ⟨name, hg⟩ := Option.isSome_iff_exists.mp hroute
  cases hf : f u with
  | ok issues =>
    simp [lintSingleFile, hg, hf, getDiagnostics, setDiagnostics, mapGet_mapSet_self]
  | error e =>
    simp [lintSingleFile, hg, hf, getDiagnostics, clearDiagnostics, mapGet_mapDelete_self]

theorem getDiagnostics_lintSingleFile_ne (registered : List String)
    (f : String → Except Unit (List LintIssue)) (dp : DiagnosticProviderState)
    (u v : String) (hne : u ≠ v) :
    getDiagnostics (lintSingleFile registered f dp v) u = getDiagnostics dp u := by
  unfold lintSingleFile
  cases getLinterForExtension registered (fileExtension v) with
  | none => rfl
  | some name =>
    cases f v with
    | ok issues =>
      simp only [getDiagnostics, setDiagnostics]
      exact mapGet_mapSet_ne _ v _ u hne
    | error e =>
      simp only [getDiagnostics, clearDiagnostics]
      exact mapGet_mapDelete_ne _ v u hne

/-- Processing a batch leaves, for every file occurring in it, exactly the
outcome of its own lint call — independent of the other items' successes or
failures and of whatever the sink held before. -/
theorem processBatch_last_write (registered : List String)
    (f : String → Except Unit (List LintIssue)) (u : String)
    (target : Option (List Diagnostic))
    (hroute : (getLinterForExtension registered (fileExtension u)).isSome = true)
    (htarget : (match f u with
      | Except.ok issues => some (convertIssuesToDiagnostics issues)
      | Except.error _ => none) = target) :
    ∀ (batch : List LintQueueItem) (dp : DiagnosticProviderState),
      (getDiagnostics dp u = target ∨ u ∈ batch.map LintQueueItem.uri) →
      getDiagnostics (processBatch registered f dp batch) u = target
  | [], dp, h => by
    rcases h with h | h
    · simpa [processBatch] using h
    · simp at h
  | item :: rest, dp, h => by
    rw [processBatch, List.foldl_cons]
    by_cases hi : item.uri = u
    · apply processBatch_last_write registered f u target hroute htarget rest
      refine Or.inl ?_
      rw [hi]
      rw [getDiagnostics_lintSingleFile_self registered f dp u hroute]
      exact htarget
    · apply processBatch_last_write registered f u target hroute htarget rest
      rcases h with h | h
      · refine Or.inl ?_
        rw [getDiagnostics_lintSingleFile_ne registered f dp u item.uri
          (fun he => hi he.symm)]
        exact h
      · rw [List.map_cons] at h
        rcases List.mem_cons.mp h with h2 | h2
        · exact absurd h2.symm hi
        · exact Or.inr h2

/-- C3: for every file in a dispatched batch that routes to a registered
linter, a successful lint call replaces the file's entry in the diagnostic
sink with exactly the returned issues, while a thrown lint call leaves no
entry at all for the file (any previously published diagnostics are
cleared), and neither outcome depends on the other batch items — one file's
failure never aborts the processing of the rest. -/
theorem c3_lint_failure_clears_and_does_not_abort (registered : List String)
    (f : String → Except Unit (List LintIssue)) (dp : DiagnosticProviderState)
    (batch : List LintQueueItem) (u : String)
    (hmem : u ∈ batch.map LintQueueItem.uri)
    (hroute : (getLinterForExtension registered (fileExtension u)).isSome = true) :
    (∀ issues, f u = Except.ok issues →
        getDiagnostics (processBatch registered f dp batch) u
          = some (convertIssuesToDiagnostics issues)) ∧
      (f u = Except.error () →
        getDiagnostics (processBatch registered f dp batch) u = none) := by
  constructor
  · intro issues hf
    exact processBatch_last_write registered f u
      (some (convertIssuesToDiagnostics issues)) hroute (by rw [hf]) batch dp
      (Or.inr hmem)
  · intro hf
    exact processBatch_last_write registered f u none hroute (by rw [hf]) batch dp
      (Or.inr hmem)

theorem c3_witness_stale_cleared_and_batch_continues :
    getDiagnostics
        (processBatch ["typescript", "javascript", "python", "html", "css"]
          (fun u => if u = "b.css" then
              Except.ok [LintIssue.mk "issue" IssueSeverity.warning 1 1 none none "css" none none]
            else Except.error ())
          (setDiagnostics initialDiagnosticProvider "a.css"
            [LintIssue.mk "e1" IssueSeverity.error 1 1 none none "css" none none,
             LintIssue.mk "e2" IssueSeverity.error 2 1 none none "css" none none,
             LintIssue.mk "e3" IssueSeverity.error 3 1 none none "css" none none])
          [LintQueueItem.mk "a.css" 100 0, LintQueueItem.mk "b.css" 1 1])
        "a.css" = none ∧
      getDiagnostics
        (processBatch ["typescript", "javascript", "python", "html", "css"]
          (fun u => if u = "b.css" then
              Except.ok [LintIssue.mk "issue" IssueSeverity.warning 1 1 none none "css" none none]
            else Except.error ())
          (setDiagnostics initialDiagnosticProvider "a.css"
            [LintIssue.mk "e1" IssueSeverity.error 1 1 none none "css" none none,
             LintIssue.mk "e2" IssueSeverity.error 2 1 none none "css" none none,
             LintIssue.mk "e3" IssueSeverity.error 3 1 none none "css" none none])
          [LintQueueItem.mk "a.css" 100 0, LintQueueItem.mk "b.css" 1 1])
        "b.css"
        = some (convertIssuesToDiagnostics
            [LintIssue.mk "issue" IssueSeverity.warning 1 1 none none "css" none none]) := by
  constructor
  · exact (c3_lint_failure_clears_and_does_not_abort _ _ _ _ "a.css"
      (by decide) (by decide)).2 rfl
  · exact (c3_lint_failure_clears_and_does_not_abort _ _ _ _ "b.css"
      (by decide) (by decide)).1 _ rfl

/-! ## The orchestrator (`WorkspaceLinter`) as a state machine -/

/-- The orchestrator's `configCache` object (loaded by
`loadConfiguration`). -/
structure ConfigCache where
  enabledLanguages : List String
  excludePatterns : List String
  maxFiles : Nat
  debounceMs : Nat
  autoStart : Bool
  lintOnSave : Bool
  lintOnOpen : Bool
  deriving Repr, DecidableEq

/-- The defaults of `loadConfiguration` when no setting overrides them. -/
def defaultConfigCache : ConfigCache :=
  { enabledLanguages := ["typescript", "javascript", "python", "html", "css"],
    excludePatterns := defaultExcludePatterns,
    maxFiles := 1000, debounceMs := 300, autoStart := true,
    lintOnSave := true, lintOnOpen := true }

/-- `LintingStats` from `workspaceLinter.ts`.  `averageTimePerFile` is a JS
float (`totalTime / filesProcessed`), modeled as an exact rational. -/
structure LintingStats where
  filesProcessed : Nat
  totalTime : Nat
  averageTimePerFile : Rat
  lastLintTime : Nat
  errorsFound : Nat
  warningsFound : Nat
  deriving Repr, DecidableEq

/-- The mutable fields of `WorkspaceLinter`.  The linter registry
`this.linters` is carried as name ↦ supported-extension set (each adapter's
`lint` behavior enters as an external input of the events that use it);
`periodicLintTimer` holds a timer handle when a periodic re-scan timer is
scheduled. -/
structure WorkspaceLinterState where
  isLinting : Bool
  isInitialized : Bool
  isProcessingQueue : Bool
  lintingQueue : List LintQueueItem
  periodicLintTimer : Option Nat
  gitignoreCache : GitignoreCache
  diagnosticProvider : DiagnosticProviderState
  lintingStats : LintingStats
  configCache : Option ConfigCache
  linters : List (String × List String)
  deriving Repr, DecidableEq

/-- The external inputs one `lintWorkspace()` run consumes: the clock, the
workspace/ignore-file state, the `findFiles` enumeration, the host's
`asRelativePath`, the user's answer to the file-limit prompt, each lint
call's outcome, and the run's elapsed time. -/
structure WorkspaceLintInput where
  now : Nat
  hasWorkspaceFolders : Bool
  gitignoreRead : GitignoreRead
  discoveredFiles : List String
  relativePath : String → String
  choice : LimitChoice
  lintResults : String → Except Unit (List LintIssue)
  elapsed : Nat

/-- `WorkspaceLinter.updateLintingStats(filesProcessed, totalTime)`:
accumulate counts and time, recompute the average, stamp the time, snapshot
the sink's error/warning totals. -/
def updateLintingStats (stats : LintingStats) (filesProcessed elapsed : Nat)
    (dp : DiagnosticProviderState) (now : Nat) : LintingStats :=
  let fp := stats.filesProcessed + filesProcessed
  let tt := stats.totalTime + elapsed
  { filesProcessed := fp, totalTime := tt,
    averageTimePerFile := (tt : Rat) / (fp : Rat),
    lastLintTime := now,
    errorsFound := dp.diagnosticStats.errorCount,
    warningsFound := dp.diagnosticStats.warningCount }

/-- `WorkspaceLinter.lintWorkspace()`: return if no workspace; refresh the
gitignore cache; filter the `findFiles` enumeration through
`shouldLintFile`; return if nothing to lint; on exceeding the limit, prompt
— Cancel returns before anything is queued; enqueue the selected files at
low priority 1 and drain the queue to completion (batches of 5 folded into
one pass over the queue); finally update the statistics.  The
progress-report side channel and the cancellation token (never cancelled
here) do not change the state. -/
def runLintWorkspace (st : WorkspaceLinterState) (d : WorkspaceLintInput) :
    WorkspaceLinterState :=
  if !d.hasWorkspaceFolders then st
  else
    let st1 := { st with
      gitignoreCache := loadGitignorePatterns st.gitignoreCache d.now d.hasWorkspaceFolders d.gitignoreRead }
    let files := d.discoveredFiles.filter (fun f =>
      shouldLintFile st1.gitignoreCache.gitignorePatterns
        (match st1.configCache with | some c => c.excludePatterns | none => [])
        (getSupportedExtensionsUnion st1.linters) f (d.relativePath f))
    if files.isEmpty then st1
    else
      let maxFiles := match st1.configCache with | some c => c.maxFiles | none => 0
      if files.length > (if maxFiles = 0 then 1000 else maxFiles) &&
          d.choice == LimitChoice.cancel then st1
      else
        let selected := lintWorkspaceSelect maxFiles files d.choice
        let queue := selected.foldl (fun q f => addToQueue q f 1 d.now) st1.lintingQueue
        let dp := processBatch (st1.linters.map Prod.fst) d.lintResults
          st1.diagnosticProvider queue
        { st1 with
          lintingQueue := [],
          isProcessingQueue := false,
          diagnosticProvider := dp,
          lintingStats := updateLintingStats st1.lintingStats selected.length d.elapsed dp d.now }

/-- `WorkspaceLinter.setupPeriodicLinting()`: clears any existing timer and —
"Removed automatic periodic linting as it can be resource intensive" —
schedules nothing. -/
def setupPeriodicLinting (st : WorkspaceLinterState) : WorkspaceLinterState :=
  { st with periodicLintTimer := none }

/-- `WorkspaceLinter.startLinting()` on an initialized orchestrator: no-op
when already linting; otherwise mark active, run one immediate
full-workspace lint, then `setupPeriodicLinting`. -/
def startLintingOp (st : WorkspaceLinterState) (d : WorkspaceLintInput) :
    WorkspaceLinterState :=
  if st.isLinting then st
  else setupPeriodicLinting (runLintWorkspace { st with isLinting := true } d)

/-- `WorkspaceLinter.stopLinting()`: mark inactive, clear the periodic
timer, empty the queue, and clear every published diagnostic
(`DiagnosticProvider.clearAllDiagnostics`, a full reset). -/
def stopLintingOp (st : WorkspaceLinterState) : WorkspaceLinterState :=
  { st with
    isLinting := false,
    periodicLintTimer := none,
    lintingQueue := [],
    isProcessingQueue := false,
    diagnosticProvider := clearAllDiagnostics st.diagnosticProvider }

/-- `WorkspaceLinter.lintFile(uri)` (triggered by a save/open/change event):
no-op when `shouldLintFile` rejects; otherwise enqueue at high priority 100,
which starts queue processing when idle — modeled at the granularity of the
drained queue. -/
def lintFileOp (st : WorkspaceLinterState) (uri relativePath : String)
    (now : Nat) (lintResults : String → Except Unit (List LintIssue)) :
    WorkspaceLinterState :=
  if !(shouldLintFile st.gitignoreCache.gitignorePatterns
      (match st.configCache with | some c => c.excludePatterns | none => [])
      (getSupportedExtensionsUnion st.linters) uri relativePath) then st
  else
    let queue := addToQueue st.lintingQueue uri 100 now
    { st with
      lintingQueue := [],
      isProcessingQueue := false,
      diagnosticProvider := processBatch (st.linters.map Prod.fst) lintResults st.diagnosticProvider queue }

/-- `WorkspaceLinter.dispose()`: stop, clear timers and queue, drop the
registry. -/
def disposeOp (st : WorkspaceLinterState) : WorkspaceLinterState :=
  { st with
    isLinting := false,
    periodicLintTimer := none,
    lintingQueue := [],
    isProcessingQueue := false,
    linters := [] }

/-- The events driving the orchestrator: the explicit commands, the
file-watcher events, disposal — and `timerFired`, the hypothetical firing of
a periodic re-scan timer, which can only do anything when such a timer is
actually scheduled (`periodicLintTimer` set). -/
inductive OrchestratorEvent where
  | startLinting (d : WorkspaceLintInput)
  | stopLinting
  | lintWorkspaceCommand (d : WorkspaceLintInput)
  | fileEvent (uri relativePath : String) (now : Nat)
      (lintResults : String → Except Unit (List LintIssue))
  | dispose
  | timerFired (d : WorkspaceLintInput)

def applyEvent (st : WorkspaceLinterState) : OrchestratorEvent → WorkspaceLinterState
  | OrchestratorEvent.startLinting d => startLintingOp st d
  | OrchestratorEvent.stopLinting => stopLintingOp st
  | OrchestratorEvent.lintWorkspaceCommand d => runLintWorkspace st d
  | OrchestratorEvent.fileEvent u r n f => lintFileOp st u r n f
  | OrchestratorEvent.dispose => disposeOp st
  | OrchestratorEvent.timerFired d =>
    match st.periodicLintTimer with
    | none => st
    | some _ => runLintWorkspace st d

def applyEvents (st : WorkspaceLinterState) (evs : List OrchestratorEvent) :
    WorkspaceLinterState :=
  evs.foldl applyEvent st

/-- The state after the constructor and `initialize()`: inactive, empty
queue, no timer scheduled, fresh statistics. -/
def initState (linters : List (String × List String)) (config : Option ConfigCache)
    (gc : GitignoreCache) (t0 : Nat) : WorkspaceLinterState :=
  { isLinting := false, isInitialized := true, isProcessingQueue := false,
    lintingQueue := [], periodicLintTimer := none, gitignoreCache := gc,
    diagnosticProvider := initialDiagnosticProvider,
    lintingStats := { filesProcessed := 0, totalTime := 0, averageTimePerFile := 0,
                      lastLintTime := t0, errorsFound := 0, warningsFound := 0 },
    configCache := config, linters := linters }

theorem runLintWorkspace_periodicLintTimer (st : WorkspaceLinterState)
    (d : WorkspaceLintInput) :
    (runLintWorkspace st d).periodicLintTimer = st.periodicLintTimer := by
  simp only [runLintWorkspace]
  repeat' split
  all_goals rfl

theorem applyEvent_periodicLintTimer_none (st : WorkspaceLinterState)
    (ev : OrchestratorEvent) (h : st.periodicLintTimer = none) :
    (applyEvent st ev).periodicLintTimer = none := by
  cases ev with
  | startLinting d =>
    show (startLintingOp st d).periodicLintTimer = none
    unfold startLintingOp
    split
    · exact h
    · rfl
  | stopLinting => rfl
  | lintWorkspaceCommand d =>
    show (runLintWorkspace st d).periodicLintTimer = none
    rw [runLintWorkspace_periodicLintTimer]
    exact h
  | fileEvent u r n f =>
    show (lintFileOp st u r n f).periodicLintTimer = none
    unfold lintFileOp
    split
    · exact h
    · exact h
  | dispose => rfl
  | timerFired d =>
    show (match st.periodicLintTimer with
      | none => st
      | some _ => runLintWorkspace st d).periodicLintTimer = none
    rw [h]
    exact h

theorem applyEvents_periodicLintTimer_none :
    ∀ (evs : List OrchestratorEvent) (st : WorkspaceLinterState),
      st.periodicLintTimer = none →
      (applyEvents st evs).periodicLintTimer = none
  | [], _, h => h
  | ev :: rest, st, h =>
    applyEvents_periodicLintTimer_none rest (applyEvent st ev)
      (applyEvent_periodicLintTimer_none st ev h)

/-- C8: from the initial state, along any sequence of orchestrator events
(including `startLinting`, whose `setupPeriodicLinting` clears rather than
schedules the periodic timer), no periodic re-scan timer is ever scheduled;
consequently a timer firing is a no-op in every reachable state — a
workspace lint only ever happens inside an external command or file event. -/
theorem c8_no_periodic_rescan_ever_scheduled
    (linters : List (String × List String)) (config : Option ConfigCache)
    (gc : GitignoreCache) (t0 : Nat) (evs : List OrchestratorEvent) :
    (applyEvents (initState linters config gc t0) evs).periodicLintTimer = none ∧
      ∀ d : WorkspaceLintInput,
        applyEvent (applyEvents (initState linters config gc t0) evs)
            (OrchestratorEvent.timerFired d)
          = applyEvents (initState linters config gc t0) evs := by
  have hnone : (applyEvents (initState linters config gc t0) evs).periodicLintTimer
      = none :=
    applyEvents_periodicLintTimer_none evs _ (by rfl)
  refine ⟨hnone, ?_⟩
  intro d
  unfold applyEvent
  rw [hnone]

/-- C9: `stopLinting` always leaves the pending queue empty, clears every
published diagnostic and resets the sink's statistics (a full reset, not
per-file), and marks linting inactive; a second `stopLinting` changes
nothing (idempotent). -/
theorem c9_stop_linting_resets_and_idempotent (st : WorkspaceLinterState) :
    (stopLintingOp st).lintingQueue = [] ∧
      (stopLintingOp st).diagnosticProvider.diagnosticCollection = [] ∧
      (stopLintingOp st).diagnosticProvider.diagnosticStats = resetStats ∧
      (stopLintingOp st).isLinting = false ∧
      stopLintingOp (stopLintingOp st) = stopLintingOp st :=
  ⟨rfl, rfl, rfl, rfl, rfl⟩

end AutoLinter
